import Mathlib

/-!
Shallow embedding of `services/inputflinger/reader/include/EventHub.h`
(Android input EventHub header): the `BitArray` template, the synthetic
raw-event type codes, `RawAbsoluteAxisInfo`, the built-in-keyboard sentinel
and the `InputDeviceClass` enumeration, together with theorems checking the
specification's claims about them.
-/

namespace EventHubModel

/-- Number of bits in each `BitArray` element (`sizeof(uint32_t) * CHAR_BIT`). -/
def WIDTH : Nat := 32

/-- Number of elements needed to represent a bit array of `BITS` bits:
`(BITS + WIDTH - 1) / WIDTH`. -/
def COUNT (BITS : Nat) : Nat := (BITS + WIDTH - 1) / WIDTH

/-- The word stored at index `i` of `mData`.  `mData` is an array of
`std::bitset<32>`, each holding exactly 32 bits, so the word drawn from the
modelling function is reduced modulo `2 ^ 32`. -/
def wordAt (data : Nat → Nat) (i : Nat) : Nat := data i % 2 ^ 32

/-- `BitArray::test(bit)`:
`(bit < BITS) ? mData[bit / WIDTH].test(bit % WIDTH) : false`. -/
def test (BITS : Nat) (data : Nat → Nat) (bit : Nat) : Bool :=
  if bit < BITS then (wordAt data (bit / WIDTH)).testBit (bit % WIDTH) else false

/-- The range check at the top of `BitArray::any`:
`startIndex >= endIndex || startIndex > BITS || endIndex > BITS + 1`.
When it fires, `any` logs an error and returns `false`. -/
def anyInvalidRange (BITS startIndex endIndex : Nat) : Bool :=
  startIndex ≥ endIndex || startIndex > BITS || endIndex > BITS + 1

/-- Body of the middle loop of `BitArray::any`, iterated `fuel` times
starting at word `se`: one step tests `mData[se].any()` (true exactly when
the 32-bit word is nonzero) and otherwise advances to `se + 1`. -/
def anyWordLoopAux (data : Nat → Nat) (fuel se : Nat) : Bool :=
  match fuel with
  | 0 => false
  | fuel + 1 => if wordAt data se ≠ 0 then true else anyWordLoopAux data fuel (se + 1)

/-- The middle loop of `BitArray::any`:
`for (; se < ee; se++) { if (mData[se].any()) return true; }`,
which performs exactly `ee - se` iterations. -/
def anyWordLoop (data : Nat → Nat) (se ee : Nat) : Bool :=
  anyWordLoopAux data (ee - se) se

/-- `BitArray::any(startIndex, endIndex)`.  The mutation of `se`
(`mData[se++]` in the first partial word, then the loop) is rendered by
passing `se + 1` to the loop when the first partial word was examined; the
trailing test `se <= ee` on the mutated `se` is equivalent to
`se + 1 ≤ ee` (resp. `se ≤ ee`) on the original `se` because the loop
leaves `se` at `max` of its entry value and `ee`. -/
def anyB (BITS : Nat) (data : Nat → Nat) (startIndex endIndex : Nat) : Bool :=
  if anyInvalidRange BITS startIndex endIndex then false
  else
    let se := startIndex / WIDTH
    let ee := endIndex / WIDTH
    let si := startIndex % WIDTH
    let ei := endIndex % WIDTH
    if si > 0 then
      let nBits := if se = ee then ei - si else WIDTH - si
      let mask := ((1 <<< nBits) - 1) <<< si
      if wordAt data se &&& mask ≠ 0 then true
      else if anyWordLoop data (se + 1) ee then true
      else if ei > 0 && se + 1 ≤ ee then wordAt data ee &&& ((1 <<< ei) - 1) ≠ 0
      else false
    else
      if anyWordLoop data se ee then true
      else if ei > 0 && se ≤ ee then wordAt data ee &&& ((1 <<< ei) - 1) ≠ 0
      else false

/-- The `mData` word indices read by `fuel` iterations of the loop of `any`
starting at word `se` (the loop stops after the first nonzero word). -/
def anyLoopReadsAux (data : Nat → Nat) (fuel se : Nat) : List Nat :=
  match fuel with
  | 0 => []
  | fuel + 1 => if wordAt data se ≠ 0 then [se] else se :: anyLoopReadsAux data fuel (se + 1)

/-- The `mData` word indices the loop of `any` dereferences, in execution
order. -/
def anyLoopReads (data : Nat → Nat) (se ee : Nat) : List Nat :=
  anyLoopReadsAux data (ee - se) se

/-- The `mData` word indices `BitArray::any` dereferences on a given call,
in execution order, mirroring the control flow of `anyB`: the first partial
word when `si > 0`, then the loop's words, then the last partial word when
`ei > 0 && se <= ee` holds and no earlier test returned `true`. -/
def anyReads (BITS : Nat) (data : Nat → Nat) (startIndex endIndex : Nat) : List Nat :=
  if anyInvalidRange BITS startIndex endIndex then []
  else
    let se := startIndex / WIDTH
    let ee := endIndex / WIDTH
    let si := startIndex % WIDTH
    let ei := endIndex % WIDTH
    if si > 0 then
      let nBits := if se = ee then ei - si else WIDTH - si
      let mask := ((1 <<< nBits) - 1) <<< si
      if wordAt data se &&& mask ≠ 0 then [se]
      else if anyWordLoop data (se + 1) ee then se :: anyLoopReads data (se + 1) ee
      else if ei > 0 && se + 1 ≤ ee then se :: (anyLoopReads data (se + 1) ee ++ [ee])
      else se :: anyLoopReads data (se + 1) ee
    else
      if anyWordLoop data se ee then anyLoopReads data se ee
      else if ei > 0 && se ≤ ee then anyLoopReads data se ee ++ [ee]
      else anyLoopReads data se ee

/-- `BitArray::loadFromBuffer(buffer)`: `mData[i] = std::bitset<32>(buffer[i])`,
which keeps the low 32 bits of each buffer word. -/
def loadFromBuffer (buffer : Nat → Nat) : Nat → Nat :=
  fun i => buffer i % 2 ^ 32

/-- Synthetic raw event type code sent when a device is added. -/
def DEVICE_ADDED : Nat := 0x10000000

/-- Synthetic raw event type code sent when a device is removed. -/
def DEVICE_REMOVED : Nat := 0x20000000

/-- Synthetic raw event type code sent when a device scan is finished. -/
def FINISHED_DEVICE_SCAN : Nat := 0x30000000

/-- `FIRST_SYNTHETIC_EVENT = DEVICE_ADDED`. -/
def FIRST_SYNTHETIC_EVENT : Nat := DEVICE_ADDED

/-- Maximum evdev event type code, `EV_MAX = 0x1f` from the Linux evdev
interface (`linux/input.h`, included by the header): every valid kernel
event type is `≤ EV_MAX`. -/
def EV_MAX : Nat := 0x1f

/-- `RawAbsoluteAxisInfo`: describes an absolute axis. -/
structure RawAbsoluteAxisInfo where
  valid : Bool
  minValue : Int
  maxValue : Int
  flat : Int
  fuzz : Int
  resolution : Int

/-- `RawAbsoluteAxisInfo::clear()`: sets `valid = false` and every other
field to `0`. -/
def RawAbsoluteAxisInfo.clear (_ : RawAbsoluteAxisInfo) : RawAbsoluteAxisInfo :=
  { valid := false, minValue := 0, maxValue := 0, flat := 0, fuzz := 0, resolution := 0 }

/-- `EventHub::NO_BUILT_IN_KEYBOARD = -2`: the sentinel device id meaning
there is no built-in keyboard. -/
def NO_BUILT_IN_KEYBOARD : Int := -2

/-- The reserved id of the synthetic virtual keyboard (`-1`, per the header
comment on `NO_BUILT_IN_KEYBOARD` and the spec's data model). -/
def VIRTUAL_KEYBOARD_ID : Int := -1

/-- `enum class InputDeviceClass : uint32_t`. -/
inductive InputDeviceClass where
  | KEYBOARD
  | ALPHAKEY
  | TOUCH
  | CURSOR
  | TOUCH_MT
  | DPAD
  | GAMEPAD
  | SWITCH
  | JOYSTICK
  | VIBRATOR
  | MIC
  | EXTERNAL_STYLUS
  | ROTARY_ENCODER
  | VIRTUAL
  | EXTERNAL
deriving DecidableEq, Fintype

/-- The numeric value of each `InputDeviceClass` enumerator. -/
def InputDeviceClass.value : InputDeviceClass → Nat
  | .KEYBOARD => 0x00000001
  | .ALPHAKEY => 0x00000002
  | .TOUCH => 0x00000004
  | .CURSOR => 0x00000008
  | .TOUCH_MT => 0x00000010
  | .DPAD => 0x00000020
  | .GAMEPAD => 0x00000040
  | .SWITCH => 0x00000080
  | .JOYSTICK => 0x00000100
  | .VIBRATOR => 0x00000200
  | .MIC => 0x00000400
  | .EXTERNAL_STYLUS => 0x00000800
  | .ROTARY_ENCODER => 0x00001000
  | .VIRTUAL => 0x40000000
  | .EXTERNAL => 0x80000000

end EventHubModel

namespace EventHubModel

/-! Supporting lemmas about the bit-level reading of `any`'s masks and loop. -/

/-- Each stored word is below `2 ^ 32`. -/
theorem wordAt_lt (data : Nat → Nat) (i : Nat) : wordAt data i < 2 ^ 32 :=
  Nat.mod_lt _ (by norm_num)

/-- Bit `j` of the mask `((1 << n) - 1) << k` is set iff `k ≤ j < k + n`. -/
theorem testBit_mask (k n j : Nat) :
    ((((1 <<< n) - 1) <<< k).testBit j) = (decide (k ≤ j) && decide (j < k + n)) := by
  rw [Nat.testBit_shiftLeft, Nat.shiftLeft_eq, one_mul, Nat.testBit_two_pow_sub_one]
  by_cases h : k ≤ j
  · simp [h, ge_iff_le, show (j - k < n) ↔ (j < k + n) by omega]
  · simp [h, ge_iff_le]

/-- `w & (((1 << n) - 1) << k)` is nonzero iff some bit of `w` in
`[k, k + n)` is set. -/
theorem and_mask_ne_zero_iff (w k n : Nat) :
    (w &&& (((1 <<< n) - 1) <<< k) ≠ 0) ↔
      ∃ j, k ≤ j ∧ j < k + n ∧ w.testBit j = true := by
  constructor
  · intro hne
    obtain ⟨j, hj⟩ := Nat.ne_zero_implies_bit_true hne
    rw [Nat.testBit_and, testBit_mask] at hj
    simp only [Bool.and_eq_true, decide_eq_true_eq] at hj
    exact ⟨j, hj.2.1, hj.2.2, hj.1⟩
  · rintro ⟨j, h1, h2, h3⟩
    intro h0
    have hb : (w &&& (((1 <<< n) - 1) <<< k)).testBit j = false := by
      rw [h0]
      exact Nat.zero_testBit j
    rw [Nat.testBit_and, testBit_mask] at hb
    simp [h1, h2, h3] at hb

/-- `bitset::any()` on a stored word: nonzero iff some bit `j < 32` is set. -/
theorem word_ne_zero_iff (data : Nat → Nat) (k : Nat) :
    (wordAt data k ≠ 0) ↔ ∃ j, j < 32 ∧ (wordAt data k).testBit j = true := by
  constructor
  · intro h
    obtain ⟨j, hj⟩ := Nat.ne_zero_implies_bit_true h
    have hj32 : j < 32 := by
      by_contra hge
      have hlt : wordAt data k < 2 ^ j :=
        lt_of_lt_of_le (wordAt_lt data k)
          (Nat.pow_le_pow_right (by norm_num) (Nat.not_lt.mp hge))
      rw [Nat.testBit_lt_two_pow hlt] at hj
      exact Bool.false_ne_true hj
    exact ⟨j, hj32, hj⟩
  · rintro ⟨j, _, hj⟩ h0
    rw [h0, Nat.zero_testBit] at hj
    exact Bool.false_ne_true hj

/-- `fuel` iterations of the word loop find a hit iff some word in
`[se, se + fuel)` is nonzero. -/
theorem anyWordLoopAux_iff (data : Nat → Nat) (fuel se : Nat) :
    anyWordLoopAux data fuel se = true ↔
      ∃ k, se ≤ k ∧ k < se + fuel ∧ wordAt data k ≠ 0 := by
  induction fuel generalizing se with
  | zero =>
    constructor
    · intro hc
      exact absurd hc (by simp [anyWordLoopAux])
    · rintro ⟨k, h1, h2, _⟩
      omega
  | succ fuel ih =>
    show (if wordAt data se ≠ 0 then true else anyWordLoopAux data fuel (se + 1)) = true ↔ _
    by_cases hw : wordAt data se ≠ 0
    · rw [if_pos hw]
      constructor
      · intro _
        exact ⟨se, le_refl se, by omega, hw⟩
      · intro _
        rfl
    · rw [if_neg hw, ih]
      have hw0 : wordAt data se = 0 := by
        by_contra hc
        exact hw hc
      constructor
      · rintro ⟨k, h1, h2, h3⟩
        exact ⟨k, by omega, by omega, h3⟩
      · rintro ⟨k, h1, h2, h3⟩
        refine ⟨k, ?_, by omega, h3⟩
        by_contra hlt
        have hk : k = se := by omega
        exact h3 (hk ▸ hw0)

/-- The word loop of `any` finds a hit iff some word in `[a, b)` is nonzero. -/
theorem anyWordLoop_iff (data : Nat → Nat) (a b : Nat) :
    anyWordLoop data a b = true ↔ ∃ k, a ≤ k ∧ k < b ∧ wordAt data k ≠ 0 := by
  unfold anyWordLoop
  rw [anyWordLoopAux_iff]
  constructor
  · rintro ⟨k, h1, h2, h3⟩
    exact ⟨k, h1, by omega, h3⟩
  · rintro ⟨k, h1, h2, h3⟩
    exact ⟨k, h1, by omega, h3⟩

/-- An empty word loop returns `false`. -/
theorem anyWordLoop_eq_false_of_ge (data : Nat → Nat) (a b : Nat) (h : b ≤ a) :
    anyWordLoop data a b = false := by
  unfold anyWordLoop
  rw [show b - a = 0 by omega]
  rfl

/-- The first-partial-word mask test of `any`, read at the level of global bit
indices: bits `[32 * se + k, 32 * se + k + n)` of the array, for `k + n ≤ 32`. -/
theorem mask_region (data : Nat → Nat) (se k n : Nat) (hkn : k + n ≤ 32) :
    (wordAt data se &&& (((1 <<< n) - 1) <<< k) ≠ 0) ↔
      ∃ i, 32 * se + k ≤ i ∧ i < 32 * se + k + n ∧
        (wordAt data (i / 32)).testBit (i % 32) = true := by
  rw [and_mask_ne_zero_iff]
  constructor
  · rintro ⟨j, h1, h2, h3⟩
    refine ⟨32 * se + j, by omega, by omega, ?_⟩
    rw [show (32 * se + j) / 32 = se by omega, show (32 * se + j) % 32 = j by omega]
    exact h3
  · rintro ⟨i, h1, h2, h3⟩
    refine ⟨i % 32, by omega, by omega, ?_⟩
    rw [show i / 32 = se by omega] at h3
    exact h3

/-- The word loop of `any`, read at the level of global bit indices:
bits `[32 * a, 32 * b)` of the array. -/
theorem loop_region (data : Nat → Nat) (a b : Nat) :
    anyWordLoop data a b = true ↔
      ∃ i, 32 * a ≤ i ∧ i < 32 * b ∧
        (wordAt data (i / 32)).testBit (i % 32) = true := by
  rw [anyWordLoop_iff]
  constructor
  · rintro ⟨k, h1, h2, h3⟩
    obtain ⟨j, hj32, hjb⟩ := (word_ne_zero_iff data k).mp h3
    refine ⟨32 * k + j, by omega, by omega, ?_⟩
    rw [show (32 * k + j) / 32 = k by omega, show (32 * k + j) % 32 = j by omega]
    exact hjb
  · rintro ⟨i, h1, h2, hb⟩
    exact ⟨i / 32, by omega, by omega,
      (word_ne_zero_iff data (i / 32)).mpr ⟨i % 32, by omega, hb⟩⟩

/-- Splitting a half-open index range at an interior point. -/
theorem exists_in_split (P : Nat → Prop) (a b c : Nat) (hab : a ≤ b) (hbc : b ≤ c) :
    (∃ i, a ≤ i ∧ i < c ∧ P i) ↔
      (∃ i, a ≤ i ∧ i < b ∧ P i) ∨ (∃ i, b ≤ i ∧ i < c ∧ P i) := by
  constructor
  · rintro ⟨i, ha, hc, hp⟩
    by_cases hib : i < b
    · exact Or.inl ⟨i, ha, hib, hp⟩
    · exact Or.inr ⟨i, by omega, hc, hp⟩
  · rintro (⟨i, ha, hb, hp⟩ | ⟨i, hb, hc, hp⟩)
    · exact ⟨i, ha, by omega, hp⟩
    · exact ⟨i, by omega, hc, hp⟩

/-- Reduction of `anyB` once the range check has passed. -/
theorem anyB_valid (BITS : Nat) (data : Nat → Nat) (lo hi : Nat)
    (h : anyInvalidRange BITS lo hi = false) :
    anyB BITS data lo hi =
      if lo % 32 > 0 then
        if wordAt data (lo / 32) &&&
            ((1 <<< (if lo / 32 = hi / 32 then hi % 32 - lo % 32 else 32 - lo % 32)) - 1)
              <<< (lo % 32) ≠ 0 then true
        else if anyWordLoop data (lo / 32 + 1) (hi / 32) then true
        else if hi % 32 > 0 && lo / 32 + 1 ≤ hi / 32 then
          wordAt data (hi / 32) &&& ((1 <<< (hi % 32)) - 1) ≠ 0
        else false
      else
        if anyWordLoop data (lo / 32) (hi / 32) then true
        else if hi % 32 > 0 && lo / 32 ≤ hi / 32 then
          wordAt data (hi / 32) &&& ((1 <<< (hi % 32)) - 1) ≠ 0
        else false := by
  unfold anyB WIDTH
  rw [h]
  rfl

/-- C1: for every width, array state and indices `lo < hi ≤ BITS`,
`any(lo, hi)` returns `true` iff some index `i` with `lo ≤ i < hi` has
`test(i) = true`: the partial-word masking over the half-open range is
correct. -/
theorem any_eq_true_iff_exists_test (BITS : Nat) (data : Nat → Nat) (lo hi : Nat)
    (hlh : lo < hi) (hhb : hi ≤ BITS) :
    anyB BITS data lo hi = true ↔ ∃ i, lo ≤ i ∧ i < hi ∧ test BITS data i = true := by
  have hinv : anyInvalidRange BITS lo hi = false := by
    unfold anyInvalidRange
    simp only [Bool.or_eq_false_iff, decide_eq_false_iff_not]
    omega
  have htest : ∀ i, i < hi → test BITS data i = (wordAt data (i / 32)).testBit (i % 32) := by
    intro i hi'
    unfold test WIDTH
    rw [if_pos (lt_of_lt_of_le hi' hhb)]
  have hrw : (∃ i, lo ≤ i ∧ i < hi ∧ test BITS data i = true) ↔
      (∃ i, lo ≤ i ∧ i < hi ∧ (wordAt data (i / 32)).testBit (i % 32) = true) := by
    constructor
    · rintro ⟨i, h1, h2, h3⟩
      refine ⟨i, h1, h2, ?_⟩
      rw [← htest i h2]
      exact h3
    · rintro ⟨i, h1, h2, h3⟩
      refine ⟨i, h1, h2, ?_⟩
      rw [htest i h2]
      exact h3
  rw [hrw, anyB_valid BITS data lo hi hinv]
  clear hrw hinv
  by_cases hsi : lo % 32 > 0
  · rw [if_pos hsi]
    by_cases hse : lo / 32 = hi / 32
    · -- the whole range lies inside a single word: only the first mask test runs
      rw [if_pos hse]
      have hm := mask_region data (lo / 32) (lo % 32) (hi % 32 - lo % 32) (by omega)
      have hloopF : anyWordLoop data (lo / 32 + 1) (hi / 32) = false :=
        anyWordLoop_eq_false_of_ge data _ _ (by omega)
      by_cases hmask : wordAt data (lo / 32) &&&
          ((1 <<< (hi % 32 - lo % 32)) - 1) <<< (lo % 32) ≠ 0
      · rw [if_pos hmask]
        rw [hm] at hmask
        clear hm
        simp only [true_iff]
        obtain ⟨i, h1, h2, h3⟩ := hmask
        exact ⟨i, by omega, by omega, h3⟩
      · rw [if_neg hmask, if_neg (show ¬ anyWordLoop data (lo / 32 + 1) (hi / 32) = true by
          simp [hloopF])]
        rw [hm] at hmask
        clear hm
        rw [if_neg (show ¬ ((hi % 32 > 0 && lo / 32 + 1 ≤ hi / 32 : Bool) = true) by
          simp only [Bool.and_eq_true, decide_eq_true_eq, not_and]
          intro _
          omega)]
        simp only [Bool.false_eq_true, false_iff]
        rintro ⟨i, h1, h2, h3⟩
        exact hmask ⟨i, by omega, by omega, h3⟩
    · -- range spans several words
      rw [if_neg hse]
      have hm := mask_region data (lo / 32) (lo % 32) (32 - lo % 32) (by omega)
      have hl := loop_region data (lo / 32 + 1) (hi / 32)
      by_cases hmask : wordAt data (lo / 32) &&&
          ((1 <<< (32 - lo % 32)) - 1) <<< (lo % 32) ≠ 0
      · rw [if_pos hmask]
        rw [hm] at hmask
        clear hm hl
        simp only [true_iff]
        obtain ⟨i, h1, h2, h3⟩ := hmask
        exact ⟨i, by omega, by omega, h3⟩
      · rw [if_neg hmask]
        rw [hm] at hmask
        clear hm
        by_cases hloop : anyWordLoop data (lo / 32 + 1) (hi / 32) = true
        · rw [if_pos hloop]
          rw [hl] at hloop
          clear hl
          simp only [true_iff]
          obtain ⟨i, h1, h2, h3⟩ := hloop
          exact ⟨i, by omega, by omega, h3⟩
        · rw [if_neg hloop]
          rw [hl] at hloop
          clear hl
          by_cases hei : hi % 32 > 0
          · rw [if_pos (show (hi % 32 > 0 && lo / 32 + 1 ≤ hi / 32 : Bool) = true by
              simp only [Bool.and_eq_true, decide_eq_true_eq]
              exact ⟨hei, by omega⟩)]
            rw [decide_eq_true_eq]
            have ht := mask_region data (hi / 32) 0 (hi % 32) (by omega)
            rw [Nat.shiftLeft_zero] at ht
            rw [ht]
            clear ht
            constructor
            · rintro ⟨i, h1, h2, h3⟩
              exact ⟨i, by omega, by omega, h3⟩
            · rintro ⟨i, h1, h2, h3⟩
              by_cases c1 : i < 32 * (lo / 32 + 1)
              · exact absurd ⟨i, by omega, by omega, h3⟩ hmask
              · by_cases c2 : i < 32 * (hi / 32)
                · exact absurd ⟨i, by omega, by omega, h3⟩ hloop
                · exact ⟨i, by omega, by omega, h3⟩
          · rw [if_neg (show ¬ ((hi % 32 > 0 && lo / 32 + 1 ≤ hi / 32 : Bool) = true) by
              simp only [Bool.and_eq_true, decide_eq_true_eq, not_and]
              intro hc
              omega)]
            simp only [Bool.false_eq_true, false_iff]
            rintro ⟨i, h1, h2, h3⟩
            by_cases c1 : i < 32 * (lo / 32 + 1)
            · exact hmask ⟨i, by omega, by omega, h3⟩
            · exact hloop ⟨i, by omega, by omega, h3⟩
  · -- aligned start: no first partial word
    rw [if_neg hsi]
    have hl := loop_region data (lo / 32) (hi / 32)
    by_cases hloop : anyWordLoop data (lo / 32) (hi / 32) = true
    · rw [if_pos hloop]
      rw [hl] at hloop
      clear hl
      simp only [true_iff]
      obtain ⟨i, h1, h2, h3⟩ := hloop
      exact ⟨i, by omega, by omega, h3⟩
    · rw [if_neg hloop]
      rw [hl] at hloop
      clear hl
      by_cases hei : hi % 32 > 0
      · rw [if_pos (show (hi % 32 > 0 && lo / 32 ≤ hi / 32 : Bool) = true by
          simp only [Bool.and_eq_true, decide_eq_true_eq]
          exact ⟨hei, by omega⟩)]
        rw [decide_eq_true_eq]
        have ht := mask_region data (hi / 32) 0 (hi % 32) (by omega)
        rw [Nat.shiftLeft_zero] at ht
        rw [ht]
        clear ht
        constructor
        · rintro ⟨i, h1, h2, h3⟩
          exact ⟨i, by omega, by omega, h3⟩
        · rintro ⟨i, h1, h2, h3⟩
          by_cases c2 : i < 32 * (hi / 32)
          · exact absurd ⟨i, by omega, by omega, h3⟩ hloop
          · exact ⟨i, by omega, by omega, h3⟩
      · rw [if_neg (show ¬ ((hi % 32 > 0 && lo / 32 ≤ hi / 32 : Bool) = true) by
          simp only [Bool.and_eq_true, decide_eq_true_eq, not_and]
          intro hc
          omega)]
        simp only [Bool.false_eq_true, false_iff]
        rintro ⟨i, h1, h2, h3⟩
        exact hloop ⟨i, by omega, by omega, h3⟩

/-- Instantiation of `any_eq_true_iff_exists_test` at `BITS = 40`,
`lo = 3`, `hi = 37`, with every array word equal to `16`. -/
theorem any_eq_true_iff_exists_test_inst :
    anyB 40 (fun _ => 16) 3 37 = true ↔
      ∃ i, 3 ≤ i ∧ i < 37 ∧ test 40 (fun _ => 16) i = true :=
  any_eq_true_iff_exists_test 40 (fun _ => 16) 3 37 (by decide) (by decide)

/-- C2 counterexample: the claim predicts that `any(4, 5)` on a 4-bit array
takes the error branch (since `startIndex ≥ BITS`) and returns `false`
without examining bits; the code accepts the call (its check is
`startIndex > BITS`, not `≥`) and, with bit 4 of the backing word set,
examines that word and returns `true`. -/
theorem any_accepts_claimed_error_input :
    anyInvalidRange 4 4 5 = false ∧ anyB 4 (fun _ => 16) 4 5 = true := by
  exact ⟨by decide, by decide⟩

/-- C2 (amended): the error branch of `any` fires exactly on
`startIndex ≥ endIndex`, `startIndex > BITS` or `endIndex > BITS + 1`; when
it fires, `any` returns `false` and dereferences no word of `mData`. -/
theorem any_error_branch_characterization (BITS startIndex endIndex : Nat)
    (data : Nat → Nat) :
    (anyInvalidRange BITS startIndex endIndex = true ↔
      (endIndex ≤ startIndex ∨ BITS < startIndex ∨ BITS + 1 < endIndex)) ∧
    (anyInvalidRange BITS startIndex endIndex = true →
      anyB BITS data startIndex endIndex = false ∧
      anyReads BITS data startIndex endIndex = []) := by
  constructor
  · unfold anyInvalidRange
    simp only [Bool.or_eq_true, decide_eq_true_eq]
    omega
  · intro h
    constructor
    · unfold anyB
      rw [h]
      rfl
    · unfold anyReads
      rw [h]
      rfl

/-- Instantiation of `any_error_branch_characterization` at the inverted
range `any(5, 5)` on a 4-bit array. -/
theorem any_error_branch_characterization_inst :
    anyB 4 (fun _ => 0) 5 5 = false ∧ anyReads 4 (fun _ => 0) 5 5 = [] :=
  (any_error_branch_characterization 4 5 5 (fun _ => 0)).2 (by decide)

/-- C8: loading a buffer and then testing is an exact round-trip of the
buffer's first `BITS` bits: `test(i)` equals bit `i % 32` of buffer word
`i / 32` for `i < BITS`, and is `false` beyond the width, so no other
buffer bit influences `test`. -/
theorem loadFromBuffer_test_roundtrip (BITS : Nat) (buffer : Nat → Nat) (i : Nat) :
    test BITS (loadFromBuffer buffer) i =
      if i < BITS then (buffer (i / 32)).testBit (i % 32) else false := by
  unfold test wordAt loadFromBuffer WIDTH
  by_cases h : i < BITS
  · rw [if_pos h, if_pos h]
    have h32 : i % 32 < 32 := Nat.mod_lt _ (by norm_num)
    rw [Nat.testBit_mod_two_pow, Nat.testBit_mod_two_pow]
    simp [h32]
  · rw [if_neg h, if_neg h]

/-- Instantiation of `loadFromBuffer_test_roundtrip` at width 8, the
constant-5 buffer and bit 3. -/
theorem loadFromBuffer_test_roundtrip_inst :
    test 8 (loadFromBuffer (fun _ => 5)) 3 =
      if 3 < 8 then ((fun _ => 5) (3 / 32) : Nat).testBit (3 % 32) else false :=
  loadFromBuffer_test_roundtrip 8 (fun _ => 5) 3

/-- Every word index read by `fuel` loop iterations starting at `se` lies
in `[se, se + fuel)`. -/
theorem anyLoopReadsAux_mem (data : Nat → Nat) (fuel se : Nat) :
    ∀ i ∈ anyLoopReadsAux data fuel se, se ≤ i ∧ i < se + fuel := by
  induction fuel generalizing se with
  | zero =>
    intro i hi
    exact absurd hi (by simp [anyLoopReadsAux])
  | succ fuel ih =>
    intro i hi
    simp only [anyLoopReadsAux] at hi
    by_cases hw : wordAt data se ≠ 0
    · rw [if_pos hw] at hi
      simp only [List.mem_singleton] at hi
      omega
    · rw [if_neg hw] at hi
      rcases List.mem_cons.mp hi with rfl | hi'
      · omega
      · have := ih (se + 1) i hi'
        omega

/-- Every word index read by the loop of `any` over `[a, b)` lies in
`[a, b)`. -/
theorem anyLoopReads_mem (data : Nat → Nat) (a b : Nat) :
    ∀ i ∈ anyLoopReads data a b, a ≤ i ∧ i < b := by
  intro i hi
  unfold anyLoopReads at hi
  have := anyLoopReadsAux_mem data (b - a) a i hi
  omega

/-- C9 counterexample: at width `BITS = 32` the boundary call
`any(BITS, BITS + 1) = any(32, 33)` passes the range check, yet on an
all-zero array it dereferences word index `1 = COUNT`, one element past the
end of `mData`. -/
theorem any_boundary_read_out_of_bounds_cex :
    anyInvalidRange 32 32 33 = false ∧ COUNT 32 = 1 ∧
    anyReads 32 (fun _ => 0) 32 33 = [1] := by
  exact ⟨by decide, by decide, by decide⟩

/-- C9 (amended): for every call accepted by the range check, every word
index `any` dereferences is `< COUNT`, except in the boundary case where
`BITS` is a multiple of the 32-bit word width and `endIndex = BITS + 1` (in
which case word index `COUNT` may be read, as the counterexample shows). -/
theorem any_reads_in_bounds (BITS : Nat) (data : Nat → Nat) (s e : Nat)
    (hacc : anyInvalidRange BITS s e = false)
    (hexc : ¬ (BITS % 32 = 0 ∧ e = BITS + 1)) :
    ∀ i ∈ anyReads BITS data s e, i < COUNT BITS := by
  have hs : s < e ∧ s ≤ BITS ∧ e ≤ BITS + 1 := by
    unfold anyInvalidRange at hacc
    simp only [Bool.or_eq_false_iff, decide_eq_false_iff_not] at hacc
    omega
  obtain ⟨hlt, hsB, heB⟩ := hs
  intro i hi
  unfold anyReads WIDTH at hi
  rw [hacc] at hi
  rw [if_neg Bool.false_ne_true] at hi
  by_cases hsi : s % 32 > 0
  · rw [if_pos hsi] at hi
    by_cases hmask : wordAt data (s / 32) &&&
        ((1 <<< (if s / 32 = e / 32 then e % 32 - s % 32 else 32 - s % 32)) - 1)
          <<< (s % 32) ≠ 0
    · rw [if_pos hmask] at hi
      clear hmask
      simp only [List.mem_singleton] at hi
      subst hi
      unfold COUNT WIDTH
      omega
    · rw [if_neg hmask] at hi
      clear hmask
      by_cases hloop : anyWordLoop data (s / 32 + 1) (e / 32) = true
      · rw [if_pos hloop] at hi
        rcases List.mem_cons.mp hi with rfl | hi'
        · unfold COUNT WIDTH
          omega
        · have := anyLoopReads_mem data (s / 32 + 1) (e / 32) i hi'
          unfold COUNT WIDTH
          omega
      · rw [if_neg hloop] at hi
        by_cases hcond : (e % 32 > 0 && s / 32 + 1 ≤ e / 32 : Bool) = true
        · rw [if_pos hcond] at hi
          simp only [Bool.and_eq_true, decide_eq_true_eq] at hcond
          rcases List.mem_cons.mp hi with rfl | hi'
          · unfold COUNT WIDTH
            omega
          · rcases List.mem_append.mp hi' with hi'' | hi''
            · have := anyLoopReads_mem data (s / 32 + 1) (e / 32) i hi''
              unfold COUNT WIDTH
              omega
            · simp only [List.mem_singleton] at hi''
              subst hi''
              unfold COUNT WIDTH
              omega
        · rw [if_neg hcond] at hi
          rcases List.mem_cons.mp hi with rfl | hi'
          · unfold COUNT WIDTH
            omega
          · have := anyLoopReads_mem data (s / 32 + 1) (e / 32) i hi'
            unfold COUNT WIDTH
            omega
  · rw [if_neg hsi] at hi
    by_cases hloop : anyWordLoop data (s / 32) (e / 32) = true
    · rw [if_pos hloop] at hi
      have := anyLoopReads_mem data (s / 32) (e / 32) i hi
      unfold COUNT WIDTH
      omega
    · rw [if_neg hloop] at hi
      by_cases hcond : (e % 32 > 0 && s / 32 ≤ e / 32 : Bool) = true
      · rw [if_pos hcond] at hi
        simp only [Bool.and_eq_true, decide_eq_true_eq] at hcond
        rcases List.mem_append.mp hi with hi' | hi'
        · have := anyLoopReads_mem data (s / 32) (e / 32) i hi'
          unfold COUNT WIDTH
          omega
        · simp only [List.mem_singleton] at hi'
          subst hi'
          unfold COUNT WIDTH
          omega
      · rw [if_neg hcond] at hi
        have := anyLoopReads_mem data (s / 32) (e / 32) i hi
        unfold COUNT WIDTH
        omega

/-- Instantiation of `any_reads_in_bounds` at width 16 and the full-range
call `any(0, 16)` on an all-zero array: the single word read is word 0. -/
theorem any_reads_in_bounds_inst : (0 : Nat) < COUNT 16 :=
  any_reads_in_bounds 16 (fun _ => 0) 0 16 (by decide) (by decide) 0 (by decide)

/-- C3: for every width `BITS` and every bit index `i ≥ BITS`, `test(i)`
returns `false`: the query is total and out-of-width bits read as unset. -/
theorem test_out_of_width_eq_false (BITS : Nat) (data : Nat → Nat) (i : Nat)
    (h : BITS ≤ i) : test BITS data i = false := by
  unfold test
  simp [Nat.not_lt.mpr h]

/-- Instantiation of `test_out_of_width_eq_false` at `BITS = 8`, `i = 9`,
with every word of the array all-ones. -/
theorem test_out_of_width_eq_false_inst :
    test 8 (fun _ => 4294967295) 9 = false :=
  test_out_of_width_eq_false 8 (fun _ => 4294967295) 9 (by decide)

/-- C4: the three synthetic raw event type codes are pairwise distinct and
each is strictly greater than every valid evdev event type code
(`t ≤ EV_MAX`), so the `type` field distinguishes synthetic lifecycle
events from kernel evdev events. -/
theorem synthetic_type_codes_distinct_and_above_evdev :
    DEVICE_ADDED ≠ DEVICE_REMOVED ∧ DEVICE_ADDED ≠ FINISHED_DEVICE_SCAN ∧
    DEVICE_REMOVED ≠ FINISHED_DEVICE_SCAN ∧
    ∀ t : Nat, t ≤ EV_MAX →
      t < DEVICE_ADDED ∧ t < DEVICE_REMOVED ∧ t < FINISHED_DEVICE_SCAN := by
  refine ⟨by decide, by decide, by decide, ?_⟩
  intro t ht
  unfold EV_MAX at ht
  unfold DEVICE_ADDED DEVICE_REMOVED FINISHED_DEVICE_SCAN
  omega

/-- Instantiation of `synthetic_type_codes_distinct_and_above_evdev` at the
largest evdev type code `t = 0x1f`. -/
theorem synthetic_type_codes_distinct_and_above_evdev_inst :
    0x1f < DEVICE_ADDED ∧ 0x1f < DEVICE_REMOVED ∧ 0x1f < FINISHED_DEVICE_SCAN :=
  synthetic_type_codes_distinct_and_above_evdev.2.2.2 0x1f (by decide)

/-- C6: after `clear()`, `valid` is `false` and every other field equals 0. -/
theorem clear_zeroes_all_fields (r : RawAbsoluteAxisInfo) :
    (r.clear).valid = false ∧ (r.clear).minValue = 0 ∧ (r.clear).maxValue = 0 ∧
    (r.clear).flat = 0 ∧ (r.clear).fuzz = 0 ∧ (r.clear).resolution = 0 := by
  refine ⟨rfl, rfl, rfl, rfl, rfl, rfl⟩

/-- Instantiation of `clear_zeroes_all_fields` at a concrete record. -/
theorem clear_zeroes_all_fields_inst :
    (RawAbsoluteAxisInfo.clear ⟨true, 1, 2, 3, 4, 5⟩).valid = false ∧
    (RawAbsoluteAxisInfo.clear ⟨true, 1, 2, 3, 4, 5⟩).minValue = 0 ∧
    (RawAbsoluteAxisInfo.clear ⟨true, 1, 2, 3, 4, 5⟩).maxValue = 0 ∧
    (RawAbsoluteAxisInfo.clear ⟨true, 1, 2, 3, 4, 5⟩).flat = 0 ∧
    (RawAbsoluteAxisInfo.clear ⟨true, 1, 2, 3, 4, 5⟩).fuzz = 0 ∧
    (RawAbsoluteAxisInfo.clear ⟨true, 1, 2, 3, 4, 5⟩).resolution = 0 :=
  clear_zeroes_all_fields ⟨true, 1, 2, 3, 4, 5⟩

/-- C7: `NO_BUILT_IN_KEYBOARD` equals `-2`, is distinct from the virtual
keyboard id `-1`, and is distinct from every real device id (`≥ 1`). -/
theorem no_built_in_keyboard_sentinel_distinct :
    NO_BUILT_IN_KEYBOARD = -2 ∧ NO_BUILT_IN_KEYBOARD ≠ VIRTUAL_KEYBOARD_ID ∧
    ∀ id : Int, 1 ≤ id → NO_BUILT_IN_KEYBOARD ≠ id := by
  refine ⟨rfl, by decide, ?_⟩
  intro id hid
  unfold NO_BUILT_IN_KEYBOARD
  omega

/-- Instantiation of `no_built_in_keyboard_sentinel_distinct` at the real
device id `1`. -/
theorem no_built_in_keyboard_sentinel_distinct_inst :
    NO_BUILT_IN_KEYBOARD ≠ (1 : Int) :=
  no_built_in_keyboard_sentinel_distinct.2.2 1 (by decide)

/-- C10: every `InputDeviceClass` enumerator is a power of two, and the
values of two distinct enumerators share no bit, so a flags word represents
each set of classes uniquely. -/
theorem device_class_bits_disjoint :
    (∀ c : InputDeviceClass, ∃ k, c.value = 2 ^ k) ∧
    ∀ c c' : InputDeviceClass, c ≠ c' → c.value &&& c'.value = 0 := by
  constructor
  · intro c
    cases c with
    | KEYBOARD => exact ⟨0, rfl⟩
    | ALPHAKEY => exact ⟨1, rfl⟩
    | TOUCH => exact ⟨2, rfl⟩
    | CURSOR => exact ⟨3, rfl⟩
    | TOUCH_MT => exact ⟨4, rfl⟩
    | DPAD => exact ⟨5, rfl⟩
    | GAMEPAD => exact ⟨6, rfl⟩
    | SWITCH => exact ⟨7, rfl⟩
    | JOYSTICK => exact ⟨8, rfl⟩
    | VIBRATOR => exact ⟨9, rfl⟩
    | MIC => exact ⟨10, rfl⟩
    | EXTERNAL_STYLUS => exact ⟨11, rfl⟩
    | ROTARY_ENCODER => exact ⟨12, rfl⟩
    | VIRTUAL => exact ⟨30, rfl⟩
    | EXTERNAL => exact ⟨31, rfl⟩
  · decide

/-- Instantiation of `device_class_bits_disjoint` at `KEYBOARD` and
`TOUCH`. -/
theorem device_class_bits_disjoint_inst :
    InputDeviceClass.KEYBOARD.value &&& InputDeviceClass.TOUCH.value = 0 :=
  device_class_bits_disjoint.2 InputDeviceClass.KEYBOARD InputDeviceClass.TOUCH
    (by decide)

end EventHubModel
